import Mathlib

/-!
Shallow embedding of `src/main.py`, a Streamlit page that drives a
LangChain single-action agent.  Python strings are modelled as `List Char`.
The character classes `\s` and `\d` of the regular expression on line 134,
and the whitespace set of Python's `str.strip()`, are modelled over their
ASCII members.
-/

namespace AgentApp

/-- ASCII whitespace, the characters stripped by Python's `str.strip()` and
matched by `\s`. -/
def isSpaceChar (c : Char) : Bool :=
  c == ' ' || c == '\t' || c == '\n' || c == '\r' || c == '\x0B' || c == '\x0C'

/-- The literal marker tested with `"Final Answer:" in llm_output` (line 126). -/
def finalMarker : List Char := "Final Answer:".toList

/-- Python substring containment, `sub in s`. -/
def containsSub (m : List Char) : List Char → Bool
  | [] => m.isEmpty
  | c :: t => m.isPrefixOf (c :: t) || containsSub m t

/-- Strip every leading and trailing character satisfying `p`
(Python `str.strip` with an explicit character set). -/
def pyStripChars (p : Char → Bool) (s : List Char) : List Char :=
  ((s.dropWhile p).reverse.dropWhile p).reverse

/-- Python `str.strip()` with no argument: strip surrounding whitespace. -/
def pyStrip (s : List Char) : List Char := pyStripChars isSpaceChar s

/-- Python `.strip(" ")`: strip surrounding space characters only. -/
def stripSpacesOnly (s : List Char) : List Char := pyStripChars (· == ' ') s

/-- Python `.strip('"')`: strip all surrounding double-quote characters. -/
def stripQuotesAll (s : List Char) : List Char := pyStripChars (· == '\"') s

/-- One step of building up Python `str.split`: prepend a character to the
first piece of the split result. -/
def consHead (c : Char) : List (List Char) → List (List Char)
  | [] => [[c]]
  | r :: rs => (c :: r) :: rs

/-- Fuel-indexed Python `str.split(sep)` for a nonempty separator: scan left
to right, splitting at each non-overlapping occurrence of `sep`.  The fuel
is an upper bound on the length of `s`; it is never exhausted when the
function is entered through `pySplit`. -/
def pySplitF : Nat → List Char → List Char → List (List Char)
  | 0, _, s => [s]
  | Nat.succ n, sep, s =>
    if !sep.isEmpty && sep.isPrefixOf s then
      [] :: pySplitF n sep (s.drop sep.length)
    else
      match s with
      | [] => [[]]
      | c :: t => consHead c (pySplitF n sep t)

/-- Python `s.split(sep)` for a nonempty separator. -/
def pySplit (sep s : List Char) : List (List Char) := pySplitF s.length sep s

/-- Python `lst[-1]` on the (always nonempty) result of `str.split`. -/
def lastD : List (List Char) → List Char
  | [] => []
  | [x] => x
  | _ :: x :: t => lastD (x :: t)

/-- The suffix of `s` after the last occurrence of `m`, or `none` when `m`
does not occur.  This is the spec's description of the Final Answer branch:
"the substring after the LAST occurrence of that marker". -/
def afterLastOcc (m : List Char) : List Char → Option (List Char)
  | [] => if m.isEmpty then some [] else none
  | c :: t =>
    match afterLastOcc m t with
    | some r => some r
    | none => if m.isPrefixOf (c :: t) then some ((c :: t).drop m.length) else none

/-- Drop a literal from the front of `s`, the way a regex matches a literal. -/
def dropLiteral : List Char → List Char → Option (List Char)
  | [], s => some s
  | _ :: _, [] => none
  | c :: cs, d :: ds => if c == d then dropLiteral cs ds else none

/-- The literal `Action` of the regex on line 134. -/
def actionLit : List Char := "Action".toList

/-- The literal `Input` of the regex on line 134. -/
def inputLit : List Char := "Input".toList

/-- Consume `\s*\d*\s*` at the front of `s`.  Because whitespace and digits
are disjoint and every continuation in the pattern starts with a character
that is neither, the greedy maximal runs are the unique way this part of the
regex can match, so no backtracking is needed. -/
def afterWsDigitsWs (s : List Char) : List Char :=
  ((s.dropWhile isSpaceChar).dropWhile Char.isDigit).dropWhile isSpaceChar

/-- Match `Action\s*\d*\s*Input\s*\d*\s*:[\s]*` at the front of `s`,
returning the remainder (which the trailing `(.*)` captures as group 2). -/
def matchInputColon (s : List Char) : Option (List Char) :=
  match dropLiteral actionLit s with
  | none => none
  | some s1 =>
    match dropLiteral inputLit (afterWsDigitsWs s1) with
    | none => none
    | some s2 =>
      match afterWsDigitsWs s2 with
      | ':' :: r => some (r.dropWhile isSpaceChar)
      | _ => none

/-- The lazy group `(.*?)` followed by `\n` and the Action-Input part: scan
for the earliest newline whose continuation matches `matchInputColon`,
returning (group 1, group 2). -/
def scanGroup1 : List Char → Option (List Char × List Char)
  | [] => none
  | c :: t =>
    match (if c == '\n' then matchInputColon t else none) with
    | some r => some ([], r)
    | none =>
      match scanGroup1 t with
      | some (g1, g2) => some (c :: g1, g2)
      | none => none

/-- Decidable check that the lazy group-1 scan cannot stop early inside an
action text `X`: at every newline of `X`, the continuation (the remainder
of `X` followed by the real separator newline and `rest`) does not match
the Action-Input part.  Used to discharge the lazy-match side condition on
concrete inputs. -/
def noEarlyStop (rest : List Char) : List Char → Bool
  | [] => true
  | c :: t =>
    (if c == '\n' then (matchInputColon (t ++ '\n' :: rest)).isNone else true)
      && noEarlyStop rest t

/-- Attempt the whole pattern
`Action\s*\d*\s*:(.*?)\nAction\s*\d*\s*Input\s*\d*\s*:[\s]*(.*)`
anchored at the front of `s`. -/
def matchAtStart (s : List Char) : Option (List Char × List Char) :=
  match dropLiteral actionLit s with
  | none => none
  | some s1 =>
    match afterWsDigitsWs s1 with
    | ':' :: r => scanGroup1 r
    | _ => none

/-- `re.search` with `re.DOTALL`: try the pattern at every start position,
leftmost first. -/
def reSearch : List Char → Option (List Char × List Char)
  | [] => matchAtStart []
  | c :: t =>
    match matchAtStart (c :: t) with
    | some res => some res
    | none => reSearch t

/-- The `AgentAction` value built on lines 141-143. -/
structure ActionM where
  tool : List Char
  toolInput : List Char
  log : List Char

deriving instance DecidableEq for ActionM

/-- The result of one parse: `AgentAction` or `AgentFinish`. -/
inductive AgentOut where
  | action (a : ActionM)
  | finish (output : List Char) (log : List Char)

deriving instance DecidableEq for AgentOut

/-- `parse` either returns a value or raises `ValueError` carrying the raw
LLM output. -/
inductive ParseResult where
  | ok (step : AgentOut)
  | err (raw : List Char)

deriving instance DecidableEq for ParseResult

/-- `CustomOutputParser.parse` (lines 124-143). -/
def parse (llm_output : List Char) : ParseResult :=
  if containsSub finalMarker llm_output then
    .ok (.finish (pyStrip (lastD (pySplit finalMarker llm_output))) llm_output)
  else
    match reSearch llm_output with
    | some (g1, g2) =>
        .ok (.action ⟨pyStrip g1, stripQuotesAll (stripSpacesOnly g2), llm_output⟩)
    | none => .err llm_output

/-- A LangChain `Tool`: a name and a description (the two fields the prompt
template renders). -/
structure ToolM where
  name : List Char
  description : List Char

deriving instance DecidableEq for ToolM

/-- Python `sep.join(pieces)`. -/
def joinSep (sep : List Char) : List (List Char) → List Char
  | [] => []
  | [x] => x
  | x :: y :: t => x ++ sep ++ joinSep sep (y :: t)

/-- The scratchpad built by the loop on lines 99-102: for every
(action, observation) pair, append the action's raw log and then
`"\nObservation: {observation}\nThought: "`. -/
def scratchpadOf (steps : List (ActionM × List Char)) : List Char :=
  steps.foldl
    (fun thoughts p =>
      thoughts ++ p.1.log ++ ("\nObservation: ".toList) ++ p.2 ++ ("\nThought: ".toList))
    []

/-- Line 108-110: `"\n".join(f"{tool.name}: {tool.description}" ...)`. -/
def toolsDescOf (tools : List ToolM) : List Char :=
  joinSep ("\n".toList) (tools.map (fun t => t.name ++ (": ".toList) ++ t.description))

/-- Line 112: `", ".join([tool.name for tool in tools])`. -/
def toolNamesOf (tools : List ToolM) : List Char :=
  joinSep (", ".toList) (tools.map (fun t => t.name))

/-- The three dynamic variables substituted into the base template by
`CustomPromptTemplate.format` (lines 95-113). -/
structure FormatVars where
  agent_scratchpad : List Char
  tools : List Char
  tool_names : List Char

/-- The kwargs computed by `CustomPromptTemplate.format`: the scratchpad is
built from `intermediate_steps`, while the tool list is recomputed by
calling `tools_getter` with `kwargs["input"]` — the original user query. -/
def formatVarsOf (tools_getter : List Char → List ToolM) (input : List Char)
    (intermediate_steps : List (ActionM × List Char)) : FormatVars :=
  ⟨scratchpadOf intermediate_steps,
   toolsDescOf (tools_getter input),
   toolNamesOf (tools_getter input)⟩

/-- The base template (lines 65-83), split at its four placeholders.
Segment before `\x7btools\x7d`. -/
def tplA : List Char :=
  ("Answer the following questions as best you can, speaking casual American English. You have access to the following tools:\n\n    ").toList

/-- Template segment between the tools list and the tool names. -/
def tplB : List Char :=
  ("\n\n    Use the following format:\n\n    Question: the input question you must answer\n    Thought: you should always think about what to do\n    Action: the action to take, should be one of [").toList

/-- Template segment between the tool names and the input question. -/
def tplC : List Char :=
  ("]\n    Action Input: the input to the action\n    Observation: the result of the action\n    ... (this Thought/Action/Action Input/Observation can repeat N times)\n    Thought: I now know the final answer\n    Final Answer: the final answer to the original input question\n\n    Begin! Remember to speak casual American English when giving your final answer.\n\n    Question: ").toList

/-- Template segment between the input question and the scratchpad. -/
def tplD : List Char :=
  ("\n    ").toList

/-- Python `self.template.format(**kwargs)` on the base template. -/
def renderTemplate (v : FormatVars) (input : List Char) : List Char :=
  tplA ++ v.tools ++ tplB ++ v.tool_names ++ tplC ++ input ++ tplD ++ v.agent_scratchpad

/-- `CustomPromptTemplate.format` (lines 95-113). -/
def formatPrompt (tools_getter : List Char → List ToolM) (input : List Char)
    (intermediate_steps : List (ActionM × List Char)) : List Char :=
  renderTemplate (formatVarsOf tools_getter input intermediate_steps) input

/-- `max_iterations=3` on line 162. -/
def maxIterations : Nat := 3

/-- Outcome of one executor run: a final answer, a graceful stop at the
iteration cap (with the transcript built so far), a parse failure carrying
the raw model output, or an unknown-tool failure. -/
inductive LoopResult where
  | finished (output : List Char) (transcript : List (ActionM × List Char))
  | capped (transcript : List (ActionM × List Char))
  | failedParse (raw : List Char)
  | failedUnknownTool (tool : List Char)

deriving instance DecidableEq for LoopResult

/-- Modelled from the spec: the Orchestration Loop (§4.6).  The
`AgentExecutor` driving it is LangChain library code not present under
`src/`; per the spec it repeatedly renders the prompt, asks the model,
parses the completion, and either finishes, fails, or invokes the named
tool (after checking membership in the current tool set) and appends the
observation, for at most `maxIterations` Thinking→Acting cycles; running
out of cycles stops the loop gracefully. -/
def runLoopAux (model : List Char → List Char) (execTool : List Char → List Char → List Char)
    (tools_getter : List Char → List ToolM) (query : List Char) :
    Nat → List (ActionM × List Char) → LoopResult
  | 0, transcript => .capped transcript
  | Nat.succ n, transcript =>
    match parse (model (formatPrompt tools_getter query transcript)) with
    | .err raw => .failedParse raw
    | .ok (.finish out _) => .finished out transcript
    | .ok (.action a) =>
      if ((tools_getter query).map ToolM.name).contains a.tool then
        runLoopAux model execTool tools_getter query n
          (transcript ++ [(a, execTool a.tool a.toolInput)])
      else .failedUnknownTool a.tool

/-- Modelled from the spec: one full run of the Orchestration Loop with the
iteration cap `max_iterations=3` configured on line 162. -/
def runLoop (model : List Char → List Char) (execTool : List Char → List Char → List Char)
    (tools_getter : List Char → List ToolM) (query : List Char) : LoopResult :=
  runLoopAux model execTool tools_getter query maxIterations []

/-- `disabled=not query_text` on the submit button (line 203): the submit
control is disabled exactly when the query text is empty. -/
def submitDisabled (query_text : List Char) : Bool := query_text.isEmpty

/-- `openai_api_key.startswith("sk-")` (line 205). -/
def startsWithSk (key : List Char) : Bool := ("sk-".toList).isPrefixOf key

/-- What one Streamlit script run does: the list of
`generate_response(api_key, query)` invocations, and whether any error
message is shown (the script has no error output). -/
structure ScriptOutcome where
  generateCalls : List (List Char × List Char)
  errorShown : Bool

deriving instance DecidableEq for ScriptOutcome

/-- The form block on lines 190-214: the button can only report a
submission when it is not disabled, and `generate_response` runs exactly
when `submitted and openai_api_key.startswith("sk-")`. -/
def runScript (query_text openai_api_key : List Char) (pressed : Bool) : ScriptOutcome :=
  let submitted := pressed && !submitDisabled query_text
  if submitted && startsWithSk openai_api_key then
    ⟨[(openai_api_key, query_text)], false⟩
  else
    ⟨[], false⟩

/-- A `Document` built on lines 34-40: the plugin's description as page
content and its name as metadata. -/
structure PluginDoc where
  content : List Char
  pluginName : List Char

deriving instance DecidableEq for PluginDoc

/-- The three plugin manifest URLs (lines 25-29). -/
def urls : List (List Char) :=
  [("https://api.speak.com/.well-known/ai-plugin.json").toList,
   ("https://www.klarna.com/.well-known/ai-plugin.json").toList,
   ("https://schooldigger.com/.well-known/ai-plugin.json").toList]

/-- Modelled from the spec: the default `k` of
`vector_store.as_retriever()` (line 49), "4 in the reference behavior,
driven by the underlying library default". -/
def defaultK : Nat := 4

/-- Modelled from the spec: `retriever.get_relevant_documents(query)`
(line 53).  The FAISS index and the embeddings are library services not
present under `src/`; per the spec (§4.2) the retriever returns the `k`
indexed documents whose vectors are closest to the query embedding,
nearest first, ties broken arbitrarily.  The distances are abstracted as a
`score` function (smaller is nearer) supplied by the embedding service. -/
def retrieveDocs (score : PluginDoc → Nat) (docs : List PluginDoc) : List PluginDoc :=
  (docs.insertionSort (fun a b => score a ≤ score b)).take defaultK

/-- `get_tools` (lines 51-60): retrieve the relevant documents for the
query, map each back to its plugin's toolkit through `toolkits_dict`, and
concatenate the toolkits' `nla_tools`. -/
def get_tools (score : List Char → PluginDoc → Nat) (docs : List PluginDoc)
    (toolkits_dict : List Char → List ToolM) (query : List Char) : List ToolM :=
  ((retrieveDocs (score query) docs).map (fun d => toolkits_dict d.pluginName)).flatten

/-! ### Helper lemmas -/

theorem consHead_ne_nil (c : Char) (l : List (List Char)) : consHead c l ≠ [] := by
  cases l <;> simp [consHead]

theorem consHead_length (c : Char) (l : List (List Char)) (h : l ≠ []) :
    (consHead c l).length = l.length := by
  cases l with
  | nil => exact absurd rfl h
  | cons r rs => rfl

theorem pySplitF_ne_nil : ∀ (fuel : Nat) (sep s : List Char), pySplitF fuel sep s ≠ [] := by
  intro fuel
  induction fuel with
  | zero => intro sep s; simp [pySplitF]
  | succ n _ =>
    intro sep s
    simp only [pySplitF]
    split
    · simp
    · split
      · simp
      · exact consHead_ne_nil _ _

theorem lastD_cons_of_ne (a : List Char) (l : List (List Char)) (h : l ≠ []) :
    lastD (a :: l) = lastD l := by
  cases l with
  | nil => exact absurd rfl h
  | cons x t => rfl

theorem isPrefixOf_iff_append :
    ∀ (m s : List Char), m.isPrefixOf s = true ↔ ∃ t, s = m ++ t := by
  intro m
  induction m with
  | nil => intro s; simp [List.isPrefixOf]
  | cons a as ih =>
    intro s
    cases s with
    | nil => simp [List.isPrefixOf]
    | cons b bs =>
      simp only [List.isPrefixOf, Bool.and_eq_true, beq_iff_eq, ih bs, List.cons_append,
        List.cons.injEq]
      constructor
      · rintro ⟨hab, t, ht⟩; exact ⟨t, hab.symm, ht⟩
      · rintro ⟨t, hba, ht⟩; exact ⟨hba.symm, t, ht⟩

theorem containsSub_of_isPrefixOf (m s : List Char) (hm : m ≠ [])
    (h : m.isPrefixOf s = true) : containsSub m s = true := by
  cases s with
  | nil =>
    cases m with
    | nil => exact absurd rfl hm
    | cons a as => simp [List.isPrefixOf] at h
  | cons c t => simp [containsSub, h]

theorem dropLiteral_self_append (l r : List Char) : dropLiteral l (l ++ r) = some r := by
  induction l with
  | nil => rfl
  | cons c cs ih => simp [dropLiteral, ih]

theorem dropWhile_append_of_forall {p : Char → Bool} :
    ∀ (l r : List Char), (∀ c ∈ l, p c = true) → (l ++ r).dropWhile p = r.dropWhile p := by
  intro l
  induction l with
  | nil => intro r _; rfl
  | cons a t ih =>
    intro r h
    have ha : p a = true := h a (by simp)
    simp [List.dropWhile_cons, ha, ih r (fun c hc => h c (by simp [hc]))]

theorem space_not_digit (x : Char) (h : isSpaceChar x = true) : x.isDigit = false := by
  simp only [isSpaceChar, Bool.or_eq_true, beq_iff_eq] at h
  rcases h with ((((h | h) | h) | h) | h) | h <;> subst h <;> decide

theorem digit_not_space (x : Char) (h : x.isDigit = true) : isSpaceChar x = false := by
  cases hs : isSpaceChar x with
  | false => rfl
  | true => have := space_not_digit x hs; rw [h] at this; exact absurd this (by simp)

theorem afterWsDigitsWs_run (w1 d w2 : List Char) (c : Char) (r : List Char)
    (hw1 : ∀ x ∈ w1, isSpaceChar x = true)
    (hd : ∀ x ∈ d, x.isDigit = true)
    (hw2 : ∀ x ∈ w2, isSpaceChar x = true)
    (hc1 : isSpaceChar c = false) (hc2 : c.isDigit = false) :
    afterWsDigitsWs (w1 ++ (d ++ (w2 ++ c :: r))) = c :: r := by
  have h1 : List.dropWhile isSpaceChar (w1 ++ (d ++ (w2 ++ c :: r)))
      = List.dropWhile isSpaceChar (d ++ (w2 ++ c :: r)) :=
    dropWhile_append_of_forall w1 _ hw1
  have hcr1 : List.dropWhile isSpaceChar (c :: r) = c :: r := by
    simp [List.dropWhile_cons, hc1]
  have hcr2 : List.dropWhile Char.isDigit (c :: r) = c :: r := by
    simp [List.dropWhile_cons, hc2]
  have hw2' : List.dropWhile isSpaceChar (w2 ++ c :: r) = c :: r := by
    rw [dropWhile_append_of_forall w2 _ hw2, hcr1]
  cases d with
  | nil =>
    unfold afterWsDigitsWs
    rw [h1, List.nil_append, hw2', hcr2, hcr1]
  | cons a as =>
    have ha' : isSpaceChar a = false := digit_not_space a (hd a (by simp))
    have h2 : List.dropWhile isSpaceChar ((a :: as) ++ (w2 ++ c :: r))
        = (a :: as) ++ (w2 ++ c :: r) := by
      simp [List.dropWhile_cons, ha']
    have h3 : List.dropWhile Char.isDigit ((a :: as) ++ (w2 ++ c :: r))
        = List.dropWhile Char.isDigit (w2 ++ c :: r) :=
      dropWhile_append_of_forall (a :: as) _ hd
    cases w2 with
    | nil =>
      unfold afterWsDigitsWs
      rw [h1, h2, h3, List.nil_append, hcr2, hcr1]
    | cons b bs =>
      have hb' : Char.isDigit b = false := space_not_digit b (hw2 b (by simp))
      have h5 : List.dropWhile Char.isDigit ((b :: bs) ++ c :: r) = (b :: bs) ++ c :: r := by
        simp [List.dropWhile_cons, hb']
      have h6 : List.dropWhile isSpaceChar ((b :: bs) ++ c :: r) = c :: r := by
        rw [dropWhile_append_of_forall (b :: bs) _ hw2, hcr1]
      unfold afterWsDigitsWs
      rw [h1, h2, h3, h5, h6]

theorem take_len_append {α : Type} : ∀ (l1 l2 : List α), (l1 ++ l2).take l1.length = l1 := by
  intro l1
  induction l1 with
  | nil => intro l2; rfl
  | cons a t ih => intro l2; simp [List.take_succ_cons, ih]

theorem take_append_of_le {α : Type} :
    ∀ (l1 l2 : List α) (n : Nat), n ≤ l1.length → (l1 ++ l2).take n = l1.take n := by
  intro l1
  induction l1 with
  | nil =>
    intro l2 n h
    have h0 : n = 0 := Nat.le_zero.mp (by simpa using h)
    subst h0; rfl
  | cons a t ih =>
    intro l2 n h
    cases n with
    | zero => rfl
    | succ m =>
      have hm : m ≤ t.length := by simpa using h
      simp only [List.cons_append, List.take_succ_cons]
      rw [ih l2 m hm]

theorem drop_append_of_le {α : Type} :
    ∀ (l1 l2 : List α) (n : Nat), n ≤ l1.length → (l1 ++ l2).drop n = l1.drop n ++ l2 := by
  intro l1
  induction l1 with
  | nil =>
    intro l2 n h
    have h0 : n = 0 := Nat.le_zero.mp (by simpa using h)
    subst h0; rfl
  | cons a t ih =>
    intro l2 n h
    cases n with
    | zero => rfl
    | succ m =>
      have hm : m ≤ t.length := by simpa using h
      simp only [List.cons_append, List.drop_succ_cons]
      exact ih l2 m hm

theorem finalMarker_len : finalMarker.length = 13 := by decide

theorem finalMarker_ne_nil : finalMarker ≠ [] := by decide

theorem finalMarker_no_border :
    ∀ k, k < 13 → 1 ≤ k → finalMarker.drop k ≠ finalMarker.take (13 - k) := by decide

/-- The marker "Final Answer:" cannot overlap itself: an occurrence cannot
start strictly inside another occurrence. -/
theorem finalMarker_no_overlap (s : List Char) (h : finalMarker.isPrefixOf s = true)
    (k : Nat) (hk1 : 1 ≤ k) (hk2 : k < 13) :
    finalMarker.isPrefixOf (s.drop k) = false := by
  cases hp : finalMarker.isPrefixOf (s.drop k) with
  | false => rfl
  | true =>
    exfalso
    obtain ⟨u, hu⟩ := (isPrefixOf_iff_append _ _).mp h
    obtain ⟨v, hv⟩ := (isPrefixOf_iff_append _ _).mp hp
    subst hu
    rw [drop_append_of_le _ _ k (by rw [finalMarker_len]; omega)] at hv
    have hlen : (finalMarker.drop k).length = 13 - k := by
      rw [List.length_drop, finalMarker_len]
    have e1 : (finalMarker.drop k ++ u).take (13 - k) = finalMarker.drop k := by
      rw [← hlen, take_len_append]
    rw [hv] at e1
    have e2 : (finalMarker ++ v).take (13 - k) = finalMarker.take (13 - k) :=
      take_append_of_le _ _ _ (by rw [finalMarker_len]; omega)
    exact finalMarker_no_border k hk2 hk1 (e1.symm.trans e2)

theorem containsSub_drop_of_no (m : List Char) :
    ∀ (j : Nat) (s : List Char), (∀ k, k < j → m.isPrefixOf (s.drop k) = false) →
      containsSub m s = containsSub m (s.drop j) := by
  intro j
  induction j with
  | zero => intro s _; simp
  | succ i ih =>
    intro s h
    cases s with
    | nil => simp [List.drop_nil]
    | cons c t =>
      have h0 : m.isPrefixOf (c :: t) = false := by simpa using h 0 (Nat.succ_pos i)
      have step : containsSub m (c :: t) = containsSub m t := by
        simp [containsSub, h0]
      rw [step, List.drop_succ_cons]
      exact ih t (fun k hk => by
        simpa [List.drop_succ_cons] using h (k + 1) (Nat.succ_lt_succ hk))

theorem afterLastOcc_drop_of_no (m : List Char) :
    ∀ (j : Nat) (s : List Char), (∀ k, k < j → m.isPrefixOf (s.drop k) = false) →
      afterLastOcc m s = afterLastOcc m (s.drop j) := by
  intro j
  induction j with
  | zero => intro s _; simp
  | succ i ih =>
    intro s h
    cases s with
    | nil => simp [List.drop_nil]
    | cons c t =>
      have h0 : m.isPrefixOf (c :: t) = false := by simpa using h 0 (Nat.succ_pos i)
      have step : afterLastOcc m (c :: t) = afterLastOcc m t := by
        cases hrec : afterLastOcc m t <;> simp [afterLastOcc, hrec, h0]
      rw [step, List.drop_succ_cons]
      exact ih t (fun k hk => by
        simpa [List.drop_succ_cons] using h (k + 1) (Nat.succ_lt_succ hk))

theorem afterLastOcc_isSome (m : List Char) (hm : m ≠ []) :
    ∀ s : List Char, (afterLastOcc m s).isSome = containsSub m s := by
  have hE : m.isEmpty = false := by
    cases m with
    | nil => exact absurd rfl hm
    | cons a as => rfl
  intro s
  induction s with
  | nil => simp [afterLastOcc, containsSub, hE]
  | cons c t ih =>
    cases hrec : afterLastOcc m t with
    | some r =>
      have hct : containsSub m t = true := by rw [← ih, hrec]; rfl
      simp [afterLastOcc, hrec, containsSub, hct]
    | none =>
      have hct : containsSub m t = false := by rw [← ih, hrec]; rfl
      cases hp : m.isPrefixOf (c :: t) <;>
        simp [afterLastOcc, hrec, containsSub, hct, hp]

theorem pySplitF_length_one (sep : List Char) (hm : sep ≠ []) :
    ∀ (fuel : Nat) (s : List Char), s.length ≤ fuel →
      ((pySplitF fuel sep s).length = 1 ↔ containsSub sep s = false) := by
  have hE : sep.isEmpty = false := by
    cases sep with
    | nil => exact absurd rfl hm
    | cons a as => rfl
  intro fuel
  induction fuel with
  | zero =>
    intro s hs
    have hs0 : s = [] := List.length_eq_zero.mp (Nat.le_zero.mp hs)
    subst hs0
    simp [pySplitF, containsSub, hE]
  | succ n ih =>
    intro s hs
    by_cases hpre : (!sep.isEmpty && sep.isPrefixOf s) = true
    · have h2 : sep.isPrefixOf s = true := by
        rcases Bool.and_eq_true_iff.mp hpre with ⟨_, h⟩; exact h
      have h3 : containsSub sep s = true := containsSub_of_isPrefixOf sep s hm h2
      simp [pySplitF, hpre, h3, List.length_eq_zero, pySplitF_ne_nil]
    · have hpre' : (!sep.isEmpty && sep.isPrefixOf s) = false := by
        revert hpre; cases (!sep.isEmpty && sep.isPrefixOf s) <;> simp
      cases s with
      | nil => simp [pySplitF, hpre', containsSub, hE, hm]
      | cons c t =>
        have hpf : sep.isPrefixOf (c :: t) = false := by
          rw [hE] at hpre'; simpa using hpre'
        have hlt : t.length ≤ n := by
          simpa [List.length_cons] using hs
        rw [show pySplitF (Nat.succ n) sep (c :: t) = consHead c (pySplitF n sep t) by
          simp [pySplitF, hpre']]
        rw [consHead_length _ _ (pySplitF_ne_nil _ _ _), ih t hlt]
        simp [containsSub, hpf]

theorem pySplitF_lastD : ∀ (fuel : Nat) (s : List Char), s.length ≤ fuel →
    lastD (pySplitF fuel finalMarker s) = (afterLastOcc finalMarker s).getD s := by
  have hE : finalMarker.isEmpty = false := by decide
  intro fuel
  induction fuel with
  | zero =>
    intro s hs
    have hs0 : s = [] := List.length_eq_zero.mp (Nat.le_zero.mp hs)
    subst hs0
    simp [pySplitF, lastD, afterLastOcc, hE]
  | succ n ih =>
    intro s hs
    by_cases hpre : finalMarker.isPrefixOf s = true
    · have hcond : (!finalMarker.isEmpty && finalMarker.isPrefixOf s) = true := by
        rw [hpre, hE]; rfl
      obtain ⟨u, hu⟩ := (isPrefixOf_iff_append _ _).mp hpre
      have hlen13 : 13 ≤ s.length := by
        rw [hu, List.length_append, finalMarker_len]; omega
      have hdroplen : (s.drop finalMarker.length).length ≤ n := by
        rw [List.length_drop, finalMarker_len]; omega
      rw [show pySplitF (Nat.succ n) finalMarker s
            = [] :: pySplitF n finalMarker (s.drop finalMarker.length) by
          simp [pySplitF, hcond]]
      rw [lastD_cons_of_ne _ _ (pySplitF_ne_nil _ _ _), ih _ hdroplen]
      cases s with
      | nil => simp at hlen13
      | cons c t =>
        have hchain : afterLastOcc finalMarker t
            = afterLastOcc finalMarker ((c :: t).drop 13) := by
          have h12 : ∀ k, k < 12 → finalMarker.isPrefixOf (t.drop k) = false := by
            intro k hk
            have := finalMarker_no_overlap (c :: t) hpre (k + 1) (by omega) (by omega)
            simpa [List.drop_succ_cons] using this
          rw [afterLastOcc_drop_of_no finalMarker 12 t h12]
          rw [show (13 : Nat) = 12 + 1 from rfl, List.drop_succ_cons]
        rw [show (c :: t).drop finalMarker.length = (c :: t).drop 13 by rw [finalMarker_len]]
        cases hrec : afterLastOcc finalMarker ((c :: t).drop 13) with
        | some r =>
          have h' : afterLastOcc finalMarker t = some r := hchain.trans hrec
          simp [afterLastOcc, h', hrec]
        | none =>
          have h' : afterLastOcc finalMarker t = none := hchain.trans hrec
          simp [afterLastOcc, h', hrec, hpre, finalMarker_len]
    · have hpre' : finalMarker.isPrefixOf s = false := by
        revert hpre; cases finalMarker.isPrefixOf s <;> simp
      have hcond : (!finalMarker.isEmpty && finalMarker.isPrefixOf s) = false := by
        rw [hpre', Bool.and_false]
      cases s with
      | nil => simp [pySplitF, hcond, lastD, afterLastOcc, hE]
      | cons c t =>
        have hlt : t.length ≤ n := by simpa [List.length_cons] using hs
        have iht := ih t hlt
        rw [show pySplitF (Nat.succ n) finalMarker (c :: t)
              = consHead c (pySplitF n finalMarker t) by
            simp [pySplitF, hcond]]
        by_cases hct : containsSub finalMarker t = true
        · obtain ⟨r, hr⟩ : ∃ r, afterLastOcc finalMarker t = some r :=
            Option.isSome_iff_exists.mp
              (by rw [afterLastOcc_isSome finalMarker finalMarker_ne_nil t, hct])
          have hnot1 : (pySplitF n finalMarker t).length ≠ 1 := by
            simp [ne_eq, pySplitF_length_one finalMarker finalMarker_ne_nil n t hlt, hct]
          cases hxl : pySplitF n finalMarker t with
          | nil => exact absurd hxl (pySplitF_ne_nil _ _ _)
          | cons x l' =>
            cases l' with
            | nil => rw [hxl] at hnot1; simp at hnot1
            | cons y ys =>
              rw [hxl] at iht
              have e : lastD (consHead c (x :: y :: ys)) = lastD (x :: y :: ys) := rfl
              rw [e, iht, hr]
              simp [afterLastOcc, hr]
        · have hct' : containsSub finalMarker t = false := by
            revert hct; cases containsSub finalMarker t <;> simp
          have h1 : (pySplitF n finalMarker t).length = 1 := by
            rw [pySplitF_length_one finalMarker finalMarker_ne_nil n t hlt]
            exact hct'
          obtain ⟨x, hx⟩ := List.length_eq_one.mp h1
          have hnone : afterLastOcc finalMarker t = none := by
            have hsome := afterLastOcc_isSome finalMarker finalMarker_ne_nil t
            rw [hct'] at hsome
            cases ha : afterLastOcc finalMarker t with
            | none => rfl
            | some r => rw [ha] at hsome; simp at hsome
          rw [hx] at iht
          rw [hnone] at iht
          have hx_eq : x = t := by simpa [lastD] using iht
          subst hx_eq
          rw [hx]
          simp [consHead, lastD, afterLastOcc, hnone, hpre']

/-! ### C1 -/

/-- C1: whenever the raw text contains `"Final Answer:"`, `parse` returns an
`AgentFinish` whose output is the substring after the LAST occurrence of
the marker, trimmed of surrounding whitespace, and whose log is the full
raw text. -/
theorem c1_final_answer (s : List Char) (h : containsSub finalMarker s = true) :
    parse s = .ok (.finish (pyStrip ((afterLastOcc finalMarker s).getD [])) s) := by
  obtain ⟨r, hr⟩ : ∃ r, afterLastOcc finalMarker s = some r :=
    Option.isSome_iff_exists.mp
      (by rw [afterLastOcc_isSome finalMarker finalMarker_ne_nil s, h])
  have hM := pySplitF_lastD s.length s (le_refl _)
  simp [parse, h, pySplit, hM, hr]

theorem c1_final_answer_witness :
    parse ("Thought: done\nFinal Answer:  42 ".toList)
      = .ok (.finish
          (pyStrip ((afterLastOcc finalMarker ("Thought: done\nFinal Answer:  42 ".toList)).getD []))
          ("Thought: done\nFinal Answer:  42 ".toList)) :=
  c1_final_answer _ (by decide)

/-! ### C10 -/

/-- C10: there is an input with empty action text — `"Action:\nAction Input: foo"` —
on which `parse` returns an `AgentAction` whose tool is the empty string and
whose tool input is `"foo"`, rather than failing: the parser never requires
the action text to be nonempty. -/
theorem c10_empty_action_tool :
    parse ("Action:\nAction Input: foo".toList)
      = .ok (.action ⟨[], "foo".toList, "Action:\nAction Input: foo".toList⟩) := by
  decide

/-! ### C4 -/

/-- C4: `CustomPromptTemplate.format` recomputes the tool set from
`kwargs["input"]` — the original user query — never from the intermediate
steps, so with a fixed tools getter the rendered tools block and tool-name
list are identical whatever the transcript is. -/
theorem c4_tool_selection_ignores_transcript
    (tools_getter : List Char → List ToolM) (query : List Char)
    (steps1 steps2 : List (ActionM × List Char)) :
    (formatVarsOf tools_getter query steps1).tools
        = (formatVarsOf tools_getter query steps2).tools
      ∧ (formatVarsOf tools_getter query steps1).tool_names
        = (formatVarsOf tools_getter query steps2).tool_names :=
  ⟨rfl, rfl⟩

/-! ### C7 -/

theorem scratchpadOf_aux (steps : List (ActionM × List Char)) :
    ∀ init : List Char,
      steps.foldl
        (fun thoughts p =>
          thoughts ++ p.1.log ++ ("\nObservation: ".toList) ++ p.2 ++ ("\nThought: ".toList))
        init
      = init
        ++ (steps.map
            (fun p => p.1.log ++ ("\nObservation: ".toList) ++ p.2 ++ ("\nThought: ".toList))).flatten := by
  induction steps with
  | nil => intro init; simp
  | cons p t ih =>
    intro init
    rw [List.foldl_cons, ih]
    simp [List.append_assoc]

theorem scratchpadOf_eq (steps : List (ActionM × List Char)) :
    scratchpadOf steps
      = (steps.map
          (fun p => p.1.log ++ ("\nObservation: ".toList) ++ p.2 ++ ("\nThought: ".toList))).flatten := by
  simpa [scratchpadOf] using scratchpadOf_aux steps []

/-- C7: the rendered prompt is the fixed template with, in order, the
newline-joined "name: description" lines, the comma-joined tool names, the
original query, and the scratchpad — the in-order concatenation over the
transcript of each action's raw log followed by
`"\nObservation: {observation}\nThought: "`.  Being a function of its
arguments, the result is deterministic. -/
theorem c7_prompt_rendering (tools_getter : List Char → List ToolM) (query : List Char)
    (steps : List (ActionM × List Char)) :
    formatPrompt tools_getter query steps
      = tplA ++ toolsDescOf (tools_getter query) ++ tplB ++ toolNamesOf (tools_getter query)
        ++ tplC ++ query ++ tplD
        ++ (steps.map
            (fun p => p.1.log ++ ("\nObservation: ".toList) ++ p.2 ++ ("\nThought: ".toList))).flatten := by
  simp [formatPrompt, renderTemplate, formatVarsOf, scratchpadOf_eq]

/-! ### C5 -/

/-- C5 counterexample: with query `"hello"` and credential `"abc"` the claim
says the submit control is disabled; in the code the button's `disabled`
flag depends only on the query being empty, so it is enabled — pressing it
merely starts no run. -/
theorem c5_counterexample :
    submitDisabled ("hello".toList) = false
      ∧ (runScript ("hello".toList) ("abc".toList) true).generateCalls = [] := by
  decide

/-- C5 (amended): `generate_response` is invoked (exactly once, with the
entered credential and query) iff the button is pressed while the query is
nonempty and the credential starts with `"sk-"`; the submit control is
disabled exactly when the query is empty — not when the credential is
malformed — and a non-`sk-` credential simply results in no run and no
error message. -/
theorem c5_submission_gating (q k : List Char) (pressed : Bool) :
    ((runScript q k pressed).generateCalls = [(k, q)]
        ↔ (pressed && !q.isEmpty && startsWithSk k) = true)
      ∧ submitDisabled q = q.isEmpty
      ∧ ((runScript q k pressed).generateCalls = []
          ∨ (runScript q k pressed).generateCalls = [(k, q)])
      ∧ (runScript q k pressed).errorShown = false := by
  by_cases h : ((pressed && !q.isEmpty) && startsWithSk k) = true
  · refine ⟨?_, rfl, Or.inr ?_, ?_⟩ <;> simp [runScript, submitDisabled, h]
  · have h' : ((pressed && !q.isEmpty) && startsWithSk k) = false := by
      revert h; cases (pressed && !q.isEmpty) && startsWithSk k <;> simp
    refine ⟨?_, rfl, Or.inl ?_, ?_⟩ <;> simp [runScript, submitDisabled, h']

/-! ### C3 -/

/-- C3: when the raw text neither contains `"Final Answer:"` nor has any
position where the Action/Action-Input pattern matches, `parse` fails,
raising an error that carries the raw text; no `AgentAction` or
`AgentFinish` is produced and nothing is retried or repaired. -/
theorem c3_neither_shape_errors (s : List Char)
    (h1 : containsSub finalMarker s = false) (h2 : reSearch s = none) :
    parse s = .err s := by
  simp [parse, h1, h2]

theorem c3_neither_shape_errors_witness : parse ("hello".toList) = .err ("hello".toList) :=
  c3_neither_shape_errors _ (by decide) (by decide)

/-! ### C2 regex lemmas -/

theorem inputLit_cons : inputLit = 'I' :: "nput".toList := by decide

theorem matchInputColon_run (w3 d3 w4 w5 d5 w6 Y : List Char)
    (hw3 : ∀ x ∈ w3, isSpaceChar x = true) (hd3 : ∀ x ∈ d3, x.isDigit = true)
    (hw4 : ∀ x ∈ w4, isSpaceChar x = true)
    (hw5 : ∀ x ∈ w5, isSpaceChar x = true) (hd5 : ∀ x ∈ d5, x.isDigit = true)
    (hw6 : ∀ x ∈ w6, isSpaceChar x = true) :
    matchInputColon (actionLit ++ (w3 ++ (d3 ++ (w4 ++
        (inputLit ++ (w5 ++ (d5 ++ (w6 ++ ':' :: Y))))))))
      = some (Y.dropWhile isSpaceChar) := by
  simp only [matchInputColon, dropLiteral_self_append]
  rw [show inputLit ++ (w5 ++ (d5 ++ (w6 ++ ':' :: Y)))
        = 'I' :: ("nput".toList ++ (w5 ++ (d5 ++ (w6 ++ ':' :: Y)))) by
      rw [inputLit_cons]; rfl]
  rw [afterWsDigitsWs_run w3 d3 w4 'I' ("nput".toList ++ (w5 ++ (d5 ++ (w6 ++ ':' :: Y))))
      hw3 hd3 hw4 (by decide) (by decide)]
  rw [show ('I' : Char) :: ("nput".toList ++ (w5 ++ (d5 ++ (w6 ++ ':' :: Y))))
        = inputLit ++ (w5 ++ (d5 ++ (w6 ++ ':' :: Y))) by
      rw [inputLit_cons]; rfl]
  simp only [dropLiteral_self_append]
  rw [afterWsDigitsWs_run w5 d5 w6 ':' Y hw5 hd5 hw6 (by decide) (by decide)]
  rfl

theorem scanGroup1_run (X rest r : List Char)
    (hX : ∀ X1 X2, X = X1 ++ '\n' :: X2 → matchInputColon (X2 ++ '\n' :: rest) = none)
    (hm : matchInputColon rest = some r) :
    scanGroup1 (X ++ '\n' :: rest) = some (X, r) := by
  induction X with
  | nil => simp [scanGroup1, hm]
  | cons c t ih =>
    have iht := ih (fun X1 X2 hsplit => hX (c :: X1) X2 (by rw [hsplit]; rfl))
    by_cases hc : c = '\n'
    · subst hc
      have hn : matchInputColon (t ++ '\n' :: rest) = none := hX [] t rfl
      simp [scanGroup1, hn, iht]
    · have hc' : (c == '\n') = false := by rw [beq_eq_false_iff_ne]; exact hc
      simp [scanGroup1, hc', iht]

theorem noEarlyStop_sound (rest : List Char) :
    ∀ X : List Char, noEarlyStop rest X = true →
      ∀ X1 X2, X = X1 ++ '\n' :: X2 → matchInputColon (X2 ++ '\n' :: rest) = none := by
  intro X
  induction X with
  | nil =>
    intro _ X1 X2 hsplit
    cases X1 <;> simp at hsplit
  | cons c t ih =>
    intro h X1 X2 hsplit
    rw [noEarlyStop, Bool.and_eq_true] at h
    obtain ⟨h1, h2⟩ := h
    cases X1 with
    | nil =>
      simp only [List.nil_append] at hsplit
      obtain ⟨hc, ht⟩ := List.cons.inj hsplit
      subst hc
      rw [← ht]
      simpa using h1
    | cons a X1' =>
      simp only [List.cons_append] at hsplit
      obtain ⟨_, ht⟩ := List.cons.inj hsplit
      exact ih h2 X1' X2 ht

theorem reSearch_pos0 (s : List Char) (res : List Char × List Char)
    (h : matchAtStart s = some res) : reSearch s = some res := by
  cases s with
  | nil => simpa [reSearch] using h
  | cons c t => simp [reSearch, h]

/-- C2 (amended): for raw text of the shape
`Action<ws><digits><ws>:<action-text>\nAction<ws><digits><ws>Input<ws><digits><ws>:<input-text>`
with no `"Final Answer:"` marker, where the action text may span multiple
lines (DOTALL) provided none of its own newlines starts an Action-Input
match (there the lazy group 1 would stop instead), `parse` returns an
`AgentAction` whose tool is the action text trimmed of whitespace and
whose tool input is the input text with its leading whitespace run, then
surrounding spaces, then ALL surrounding double-quote characters removed
(not just one pair). -/
theorem c2_action_parse (w1 d1 w2 X w3 d3 w4 w5 d5 w6 Y : List Char)
    (hw1 : ∀ x ∈ w1, isSpaceChar x = true) (hd1 : ∀ x ∈ d1, x.isDigit = true)
    (hw2 : ∀ x ∈ w2, isSpaceChar x = true)
    (hX : ∀ X1 X2, X = X1 ++ '\n' :: X2 →
      matchInputColon (X2 ++ '\n' :: (actionLit ++ (w3 ++ (d3 ++ (w4 ++
        (inputLit ++ (w5 ++ (d5 ++ (w6 ++ ':' :: Y))))))))) = none)
    (hw3 : ∀ x ∈ w3, isSpaceChar x = true) (hd3 : ∀ x ∈ d3, x.isDigit = true)
    (hw4 : ∀ x ∈ w4, isSpaceChar x = true)
    (hw5 : ∀ x ∈ w5, isSpaceChar x = true) (hd5 : ∀ x ∈ d5, x.isDigit = true)
    (hw6 : ∀ x ∈ w6, isSpaceChar x = true)
    (hno : containsSub finalMarker
        (actionLit ++ (w1 ++ (d1 ++ (w2 ++ ':' ::
          (X ++ '\n' :: (actionLit ++ (w3 ++ (d3 ++ (w4 ++
            (inputLit ++ (w5 ++ (d5 ++ (w6 ++ ':' :: Y))))))))))))) = false) :
    parse (actionLit ++ (w1 ++ (d1 ++ (w2 ++ ':' ::
        (X ++ '\n' :: (actionLit ++ (w3 ++ (d3 ++ (w4 ++
          (inputLit ++ (w5 ++ (d5 ++ (w6 ++ ':' :: Y)))))))))))))
      = .ok (.action
          ⟨pyStrip X,
           stripQuotesAll (stripSpacesOnly (Y.dropWhile isSpaceChar)),
           actionLit ++ (w1 ++ (d1 ++ (w2 ++ ':' ::
             (X ++ '\n' :: (actionLit ++ (w3 ++ (d3 ++ (w4 ++
               (inputLit ++ (w5 ++ (d5 ++ (w6 ++ ':' :: Y))))))))))))⟩) := by
  have hmic := matchInputColon_run w3 d3 w4 w5 d5 w6 Y hw3 hd3 hw4 hw5 hd5 hw6
  have hscan := scanGroup1_run X _ _ hX hmic
  have hmas : matchAtStart (actionLit ++ (w1 ++ (d1 ++ (w2 ++ ':' ::
      (X ++ '\n' :: (actionLit ++ (w3 ++ (d3 ++ (w4 ++
        (inputLit ++ (w5 ++ (d5 ++ (w6 ++ ':' :: Y)))))))))))))
      = some (X, Y.dropWhile isSpaceChar) := by
    simp only [matchAtStart, dropLiteral_self_append]
    rw [afterWsDigitsWs_run w1 d1 w2 ':'
        (X ++ '\n' :: (actionLit ++ (w3 ++ (d3 ++ (w4 ++
          (inputLit ++ (w5 ++ (d5 ++ (w6 ++ ':' :: Y)))))))))
        hw1 hd1 hw2 (by decide) (by decide)]
    exact hscan
  have hre := reSearch_pos0 _ _ hmas
  simp [parse, hno, hre]

theorem c2_action_parse_witness :
    parse ("Action2 : foo\nbar\nAction 3 Input : \"cats\"".toList)
      = .ok (.action ⟨"foo\nbar".toList, "cats".toList,
          "Action2 : foo\nbar\nAction 3 Input : \"cats\"".toList⟩) :=
  c2_action_parse [] ['2'] [' '] (" foo\nbar".toList) [' '] ['3'] [' '] [' '] [] []
    (" \"cats\"".toList)
    (by decide) (by decide) (by decide)
    (noEarlyStop_sound _ _ (by decide))
    (by decide) (by decide) (by decide)
    (by decide) (by decide) (by decide) (by decide)

/-! ### C2 counterexample -/

/-- C2 counterexample: on `"Action: X\nAction Input: ""Y""` (the input text
carrying two pairs of quotes) the code strips ALL surrounding double
quotes, producing tool input `Y`, not the claim's `"Y"` with one pair
removed. -/
theorem c2_counterexample :
    parse ("Action: X\nAction Input: \"\"Y\"\"".toList)
        = .ok (.action ⟨"X".toList, "Y".toList, "Action: X\nAction Input: \"\"Y\"\"".toList⟩)
      ∧ ("Y".toList ≠ "\"Y\"".toList) := by
  decide

/-! ### C6 -/

theorem runLoopAux_capped (model : List Char → List Char)
    (execTool : List Char → List Char → List Char)
    (tools_getter : List Char → List ToolM) (query : List Char)
    (h : ∀ p, ∃ a : ActionM, parse (model p) = .ok (.action a)
          ∧ ((tools_getter query).map ToolM.name).contains a.tool = true) :
    ∀ (n : Nat) (tr : List (ActionM × List Char)),
      ∃ tr', runLoopAux model execTool tools_getter query n tr = .capped tr'
        ∧ tr'.length = tr.length + n := by
  intro n
  induction n with
  | zero => intro tr; exact ⟨tr, rfl, rfl⟩
  | succ i ihn =>
    intro tr
    obtain ⟨a, ha, hmem⟩ := h (formatPrompt tools_getter query tr)
    obtain ⟨tr', h1, h2⟩ := ihn (tr ++ [(a, execTool a.tool a.toolInput)])
    refine ⟨tr', ?_, ?_⟩
    · simp only [runLoopAux, ha, hmem, if_true]
      exact h1
    · rw [h2, List.length_append]
      simp
      omega

/-- C6: with the configured cap `max_iterations=3`, the run performs at
most 3 Thinking→Acting cycles however many consecutive `AgentAction`
completions the model produces: a model that always returns a (known-tool)
action makes the loop stop gracefully at the cap with a 3-entry transcript
— a capped result, not an error. -/
theorem c6_iteration_cap (model : List Char → List Char)
    (execTool : List Char → List Char → List Char)
    (tools_getter : List Char → List ToolM) (query : List Char)
    (h : ∀ p, ∃ a : ActionM, parse (model p) = .ok (.action a)
          ∧ ((tools_getter query).map ToolM.name).contains a.tool = true) :
    ∃ tr, runLoop model execTool tools_getter query = .capped tr
      ∧ tr.length = maxIterations := by
  obtain ⟨tr, h1, h2⟩ :=
    runLoopAux_capped model execTool tools_getter query h maxIterations []
  exact ⟨tr, h1, by simpa using h2⟩

theorem c6_iteration_cap_witness :
    ∃ tr, runLoop (fun _ => "Action: t\nAction Input: x".toList)
        (fun _ _ => "obs".toList)
        (fun _ => [⟨"t".toList, "d".toList⟩]) ("q".toList) = .capped tr
      ∧ tr.length = maxIterations :=
  c6_iteration_cap _ _ _ _
    (fun _ => ⟨⟨"t".toList, "x".toList, "Action: t\nAction Input: x".toList⟩,
      by decide, by decide⟩)

/-! ### C8 -/

/-- C8: the retriever returns the `defaultK = 4` indexed documents whose
scores are smallest, ordered nearest-first: the result is sorted by score,
has `min 4 n` elements, and together with some rest — every element of
which scores no better than every returned document — is a permutation of
the whole index.  The index (`docs`) itself is an input that the query
never mutates. -/
theorem c8_retriever_k_nearest (score : PluginDoc → Nat) (docs : List PluginDoc) :
    List.Sorted (fun a b => score a ≤ score b) (retrieveDocs score docs)
      ∧ (retrieveDocs score docs).length = min defaultK docs.length
      ∧ ∃ rest, (retrieveDocs score docs ++ rest).Perm docs
          ∧ ∀ a ∈ retrieveDocs score docs, ∀ b ∈ rest, score a ≤ score b := by
  haveI : IsTotal PluginDoc (fun a b => score a ≤ score b) :=
    ⟨fun a b => Nat.le_total _ _⟩
  haveI : IsTrans PluginDoc (fun a b => score a ≤ score b) :=
    ⟨fun _ _ _ h1 h2 => Nat.le_trans h1 h2⟩
  have hperm := List.perm_insertionSort (fun a b => score a ≤ score b) docs
  have hsort := List.sorted_insertionSort (fun a b => score a ≤ score b) docs
  refine ⟨?_, ?_,
    List.drop defaultK (docs.insertionSort (fun a b => score a ≤ score b)), ?_, ?_⟩
  · exact List.Pairwise.sublist (List.take_sublist _ _) hsort
  · rw [retrieveDocs, List.length_take, hperm.length_eq]
  · rw [retrieveDocs, List.take_append_drop]
    exact hperm
  · intro a ha b hb
    have hsort' := hsort
    rw [← List.take_append_drop defaultK
        (docs.insertionSort (fun a b => score a ≤ score b))] at hsort'
    exact (List.pairwise_append.mp hsort').2.2 a ha b hb

/-! ### C9 -/

/-- C9: only `urls.length = 3` plugin documents are indexed while the
retriever's default `k` is 4, so every query retrieves every document:
for any two queries (and even any two score functions) `get_tools` returns
the same tools up to order — always a permutation of the concatenation of
all three toolkits — so the query text never affects which tools are
available. -/
theorem c9_query_independent_tools (score score' : List Char → PluginDoc → Nat)
    (docs : List PluginDoc) (toolkits_dict : List Char → List ToolM)
    (q q' : List Char) (hlen : docs.length = urls.length) :
    (get_tools score docs toolkits_dict q).Perm (get_tools score' docs toolkits_dict q')
      ∧ (get_tools score docs toolkits_dict q).Perm
          ((docs.map (fun d => toolkits_dict d.pluginName)).flatten) := by
  have hle : docs.length ≤ defaultK := by rw [hlen]; decide
  have key : ∀ sc : PluginDoc → Nat, (retrieveDocs sc docs).Perm docs := by
    intro sc
    have hperm := List.perm_insertionSort (fun a b => sc a ≤ sc b) docs
    rw [retrieveDocs, List.take_of_length_le (by rw [hperm.length_eq]; exact hle)]
    exact hperm
  have h1 : (get_tools score docs toolkits_dict q).Perm
      ((docs.map (fun d => toolkits_dict d.pluginName)).flatten) := by
    simp only [get_tools]
    exact ((key (score q)).map (fun d => toolkits_dict d.pluginName)).flatten
  have h2 : (get_tools score' docs toolkits_dict q').Perm
      ((docs.map (fun d => toolkits_dict d.pluginName)).flatten) := by
    simp only [get_tools]
    exact ((key (score' q')).map (fun d => toolkits_dict d.pluginName)).flatten
  exact ⟨h1.trans h2.symm, h1⟩

theorem c9_query_independent_tools_witness :
    (get_tools (fun q d => q.length + d.content.length)
        ([⟨"a".toList, "speak".toList⟩, ⟨"bb".toList, "klarna".toList⟩,
          ⟨"ccc".toList, "schooldigger".toList⟩] : List PluginDoc)
        (fun n => [⟨n, n⟩]) ("best school".toList)).Perm
      (get_tools (fun _ d => 9 - d.content.length)
        ([⟨"a".toList, "speak".toList⟩, ⟨"bb".toList, "klarna".toList⟩,
          ⟨"ccc".toList, "schooldigger".toList⟩] : List PluginDoc)
        (fun n => [⟨n, n⟩]) ("shirts".toList))
      ∧ (get_tools (fun q d => q.length + d.content.length)
          ([⟨"a".toList, "speak".toList⟩, ⟨"bb".toList, "klarna".toList⟩,
            ⟨"ccc".toList, "schooldigger".toList⟩] : List PluginDoc)
          (fun n => [⟨n, n⟩]) ("best school".toList)).Perm
        ((([⟨"a".toList, "speak".toList⟩, ⟨"bb".toList, "klarna".toList⟩,
            ⟨"ccc".toList, "schooldigger".toList⟩] : List PluginDoc).map
            (fun d => ([⟨d.pluginName, d.pluginName⟩] : List ToolM))).flatten) :=
  c9_query_independent_tools (fun q d => q.length + d.content.length)
    (fun _ d => 9 - d.content.length)
    ([⟨"a".toList, "speak".toList⟩, ⟨"bb".toList, "klarna".toList⟩,
      ⟨"ccc".toList, "schooldigger".toList⟩] : List PluginDoc)
    (fun n => [⟨n, n⟩]) ("best school".toList) ("shirts".toList) (by decide)

end AgentApp
